import Mathlib

/-
Verification of the performance-record core of src/app.py (Flask backend).

Modelling conventions:
- Python floats are modelled as exact rationals plus explicit markers for the
  special values: `PFloat.fin q` is a finite float, `PFloat.pinf` and
  `PFloat.ninf` are the infinities, `PFloat.nan` is NaN.  Rounding to two
  decimal places is exact in this idealised model.
- JSON / Python values that can appear in a score field are modelled by `Val`.
- The builtin conversion `float(v)` (which can raise) is modelled by `pyFloat`,
  returning `Except Unit PFloat`; `safe_float` wraps it exactly as the source
  does (app.py lines 39-42).
- The database is a list of rows plus a next-id counter; the psycopg2 cursor
  INSERT is modelled as an append that can fail according to a per-row failure
  oracle (the bare `except` in app.py lines 374-376 logs and continues, so a
  failed row is simply skipped and the remaining rows are still committed).
-/

/-- Python float values: finite (exact rational), the two infinities, NaN. -/
inductive PFloat where
  | fin (q : ℚ)
  | pinf
  | ninf
  | nan
deriving DecidableEq

/-- Python addition on floats: NaN propagates, opposite infinities give NaN. -/
def addP : PFloat → PFloat → PFloat
  | PFloat.nan, _ => PFloat.nan
  | _, PFloat.nan => PFloat.nan
  | PFloat.fin a, PFloat.fin b => PFloat.fin (a + b)
  | PFloat.fin _, PFloat.pinf => PFloat.pinf
  | PFloat.fin _, PFloat.ninf => PFloat.ninf
  | PFloat.pinf, PFloat.fin _ => PFloat.pinf
  | PFloat.ninf, PFloat.fin _ => PFloat.ninf
  | PFloat.pinf, PFloat.pinf => PFloat.pinf
  | PFloat.ninf, PFloat.ninf => PFloat.ninf
  | PFloat.pinf, PFloat.ninf => PFloat.nan
  | PFloat.ninf, PFloat.pinf => PFloat.nan

/-- Round a rational to the nearest integer, ties to even (the rule of the
Python builtin `round`). -/
def roundHalfEvenZ (q : ℚ) : ℤ :=
  let n := ⌊q⌋
  let frac := q - (n : ℚ)
  if frac < 1 / 2 then n
  else if 1 / 2 < frac then n + 1
  else if n % 2 = 0 then n else n + 1

/-- Round a rational to two decimal places, ties to even: the model of the
Python expression `round(x, 2)` on finite floats. -/
def round2 (q : ℚ) : ℚ := (roundHalfEvenZ (q * 100) : ℚ) / 100

/-- The Python call `round(x, 2)`: rounds finite floats to two decimals and is
the identity on NaN and the infinities. -/
def roundP2 : PFloat → PFloat
  | PFloat.fin q => PFloat.fin (round2 q)
  | x => x

/-- Lowercase a character list (model of str.lower over ASCII, which is what
identifiers and the literals nan and inf need). -/
def lowerChars (l : List Char) : List Char := l.map Char.toLower

/-- Strip leading and trailing whitespace from a character list (the builtin
`float` accepts surrounding whitespace). -/
def stripChars (l : List Char) : List Char :=
  ((l.dropWhile Char.isWhitespace).reverse.dropWhile Char.isWhitespace).reverse

/-- Numeric value of a list of decimal digit characters. -/
def digitsToNat (l : List Char) : ℕ :=
  l.foldl (fun a c => a * 10 + (c.toNat - 48)) 0

/-- Multiply a rational by ten to an integer power. -/
def applyExp (q : ℚ) (e : ℤ) : ℚ :=
  if 0 ≤ e then q * (10 : ℚ) ^ e.toNat else q / (10 : ℚ) ^ (-e).toNat

/-- Parse the optional exponent suffix of a float literal and apply it to the
mantissa; anything left over that is not a well-formed exponent fails. -/
def parseExpPart (q : ℚ) : List Char → Option ℚ
  | [] => some q
  | e :: rest =>
    if e == 'e' || e == 'E' then
      match rest with
      | '+' :: t =>
        if t ≠ [] ∧ t.all Char.isDigit then some (applyExp q (digitsToNat t : ℤ)) else none
      | '-' :: t =>
        if t ≠ [] ∧ t.all Char.isDigit then some (applyExp q (-(digitsToNat t : ℤ))) else none
      | t =>
        if t ≠ [] ∧ t.all Char.isDigit then some (applyExp q (digitsToNat t : ℤ)) else none
    else none

/-- Parse an unsigned decimal float literal: digits, an optional fractional
part, an optional exponent; at least one digit must be present. -/
def parseUnsigned (l : List Char) : Option ℚ :=
  let ip := l.takeWhile Char.isDigit
  let r1 := l.dropWhile Char.isDigit
  match r1 with
  | '.' :: r2 =>
    let fp := r2.takeWhile Char.isDigit
    let r3 := r2.dropWhile Char.isDigit
    if ip = [] ∧ fp = [] then none
    else parseExpPart ((digitsToNat ip : ℚ) + (digitsToNat fp : ℚ) / (10 : ℚ) ^ fp.length) r3
  | _ =>
    if ip = [] then none else parseExpPart (digitsToNat ip : ℚ) r1

/-- Model of the string branch of the builtin `float(s)`: surrounding
whitespace is stripped, an optional sign is read, then either one of the
special literals nan / inf / infinity (case-insensitive) or a decimal literal.
`none` means the builtin raises ValueError.  (Underscore digit separators are
not modelled; no claim involves them.) -/
def pyParseFloat (s : String) : Option PFloat :=
  let t := stripChars s.data
  let sgn : Bool × List Char :=
    match t with
    | '+' :: r => (false, r)
    | '-' :: r => (true, r)
    | r => (false, r)
  let neg := sgn.1
  let body := sgn.2
  let lb := lowerChars body
  if lb = [ 'n', 'a', 'n' ] then some PFloat.nan
  else if lb = [ 'i', 'n', 'f' ] ∨ lb = "infinity".data then
    some (if neg then PFloat.ninf else PFloat.pinf)
  else
    match parseUnsigned body with
    | some q => some (PFloat.fin (if neg then -q else q))
    | none => none

/-- Values that can sit in a score field of one submitted record: a float, an
int, a bool, a string, JSON null, or any other object (list, dict, ...) on
which `float` raises TypeError. -/
inductive Val where
  | vfloat (f : PFloat)
  | vint (n : ℤ)
  | vbool (b : Bool)
  | vstr (s : String)
  | vnone
  | vobj
deriving DecidableEq

/-- Model of the builtin call `float(v)` on the result of `r.get(k)`:
`Option Val` is `none` when the key is missing (dict.get returns None).
`Except.error ()` models the call raising TypeError or ValueError. -/
def pyFloat : Option Val → Except Unit PFloat
  | none => Except.error ()
  | some Val.vnone => Except.error ()
  | some (Val.vfloat f) => Except.ok f
  | some (Val.vint n) => Except.ok (PFloat.fin (n : ℚ))
  | some (Val.vbool b) => Except.ok (PFloat.fin (if b then 1 else 0))
  | some (Val.vstr s) =>
    match pyParseFloat s with
    | some f => Except.ok f
    | none => Except.error ()
  | some Val.vobj => Except.error ()

/-- app.py lines 39-42: `try: return float(v) / except: return 0.0`. -/
def safe_float (v : Option Val) : PFloat :=
  match pyFloat v with
  | Except.ok f => f
  | Except.error _ => PFloat.fin 0

/-- app.py lines 44-46: `round(safe_float(u)+safe_float(a)+safe_float(c)+safe_float(b), 2)`.
In `save_perf` the arguments are already floats, on which the inner
`safe_float` calls are the identity (`float(x)` returns `x` for a float `x`,
including NaN and the infinities), which the model mirrors by feeding the
floats back through `safe_float` as float values. -/
def compute_total (u a c b : PFloat) : PFloat :=
  roundP2 (addP (addP (addP (safe_float (some (Val.vfloat u)))
    (safe_float (some (Val.vfloat a)))) (safe_float (some (Val.vfloat c))))
    (safe_float (some (Val.vfloat b))))

/-- One element of the JSON batch sent to POST /save_performance, as read by
`save_perf` (app.py lines 357-366): the two identifiers (strings or missing /
null, which `dict.get` both surface as None) and the four score fields plus
the client-supplied total, which the handler never reads. -/
structure RawRecord where
  lesson_id : Option String
  learner_id : Option String
  understanding : Option Val
  application : Option Val
  communication : Option Val
  behavior : Option Val
  total : Option Val
deriving DecidableEq

/-- One row of the performance_records table (schema used by the INSERT at
app.py lines 370-373): server-assigned id and timestamp plus the stored
identifiers and scores. -/
structure StoredRow where
  id : ℕ
  lesson_id : String
  learner_id : String
  understanding : PFloat
  application : PFloat
  communication : PFloat
  behavior : PFloat
  total : PFloat
  timestamp : ℕ
deriving DecidableEq

/-- The single-table database: its rows in insertion order and the next value
of the auto-increment id sequence. -/
structure DBState where
  rows : List StoredRow
  nextId : ℕ
deriving DecidableEq

/-- An HTTP response of the performance endpoints: status code, the count in
the success message of save_perf (when present), and whether the JSON body is
an error object. -/
structure Response where
  status : ℕ
  message : Option ℕ
  error : Bool
deriving DecidableEq

/-- Result of one save_perf call: the response, the database afterwards, and
whether the handler reached the storage layer (get_conn) at all. -/
structure SavePerfOut where
  resp : Response
  db : DBState
  touchedStorage : Bool

/-- The parsed request body of POST /save_performance: either a sequence of
mappings or any other JSON value (on which iterating records raises inside the
handler). -/
inductive Body where
  | records (rs : List RawRecord)
  | nonSeq

/-- Python truthiness of an identifier taken from `r.get(...)`: None and the
empty string are falsy, every other string (including whitespace-only ones) is
truthy (the `if not lid or not rid` test at app.py line 361). -/
def truthy : Option String → Bool
  | none => false
  | some s => !(s == "")

/-- app.py lines 365-373 for one accepted record: normalise the four scores
with safe_float, compute the total server-side, and INSERT the row; the store
assigns the next id and the insertion timestamp.  (Under the truthiness guard
the `getD` defaults are unreachable.) -/
def insertRow (now : ℕ) (r : RawRecord) (db : DBState) : DBState :=
  let u := safe_float r.understanding
  let a := safe_float r.application
  let c := safe_float r.communication
  let b := safe_float r.behavior
  let total := compute_total u a c b
  let newRow : StoredRow :=
    { id := db.nextId
      lesson_id := r.lesson_id.getD ""
      learner_id := r.learner_id.getD ""
      understanding := u
      application := a
      communication := c
      behavior := b
      total := total
      timestamp := now }
  { rows := db.rows ++ [ newRow ], nextId := db.nextId + 1 }

/-- The loop of save_perf (app.py lines 357-376) from batch position i on:
records whose lesson_id or learner_id is falsy are skipped with only a log
line; for the rest the INSERT is attempted, and a failing INSERT (the bare
except at lines 374-376) is logged and skipped while the loop continues.
`fail i` is the store oracle saying whether the INSERT of the record at batch
position i raises. -/
def processFrom (now : ℕ) (fail : ℕ → Bool) : ℕ → List RawRecord → DBState → DBState
  | _, [], db => db
  | i, r :: rs, db =>
    if truthy r.lesson_id && truthy r.learner_id then
      if fail i then processFrom now fail (i + 1) rs db
      else processFrom now fail (i + 1) rs (insertRow now r db)
    else processFrom now fail (i + 1) rs db

/-- The POST /save_performance handler (app.py lines 351-381).  With no pool
it answers 503 before anything else.  A body that is not a sequence of
mappings passes get_json, then a connection is acquired (storage touched),
then iterating the body raises and the outer except answers a 500 JSON error.
For a record batch the loop runs, the transaction is committed, and the
handler answers 200 with the message counting len(data) records processed. -/
def savePerf (poolOk : Bool) (now : ℕ) (fail : ℕ → Bool) (b : Body) (db : DBState) : SavePerfOut :=
  if poolOk = false then ⟨⟨503, none, true⟩, db, false⟩
  else
    match b with
    | Body.nonSeq => ⟨⟨500, none, true⟩, db, true⟩
    | Body.records rs => ⟨⟨200, some rs.length, false⟩, processFrom now fail 0 rs db, true⟩

/-- Does the character list p occur as a prefix of l. -/
def startsWithChars : List Char → List Char → Bool
  | [], _ => true
  | _ :: _, [] => false
  | a :: as, b :: bs => a == b && startsWithChars as bs

/-- Does the character list p occur contiguously anywhere inside l. -/
def subChars (p : List Char) : List Char → Bool
  | [] => startsWithChars p []
  | c :: t => startsWithChars p (c :: t) || subChars p t

/-- Is a character none of the SQL LIKE metacharacters (the wildcards percent
and underscore, and the backslash escape)? -/
def noMetaChar (c : Char) : Bool :=
  !(c == '%' || c == '_' || c == '\\')

/-- Fuelled SQL LIKE matcher (pattern against whole text, anchored): percent
matches any run of characters, underscore exactly one, a backslash escapes
the following pattern character, anything else matches itself.  The fuel
argument only makes the recursion structural; `likeMatch` below always
supplies enough fuel (every recursive call shrinks pattern length plus text
length).  A pattern ending in a bare backslash is an error in the SQL engine
and matches nothing here; the patterns fetch_data builds always end in a
percent, so the case is unreachable for them. -/
def likeMatchF : ℕ → List Char → List Char → Bool
  | 0, _, _ => false
  | _ + 1, [], t => t.isEmpty
  | n + 1, p0 :: ps, [] =>
    if p0 = '%' then likeMatchF n ps [] else false
  | n + 1, p0 :: ps, c :: ts =>
    if p0 = '%' then likeMatchF n ps (c :: ts) || likeMatchF n (p0 :: ps) ts
    else if p0 = '_' then likeMatchF n ps ts
    else if p0 = '\\' then
      (match ps with
        | [] => false
        | q :: ps2 => c == q && likeMatchF n ps2 ts)
    else c == p0 && likeMatchF n ps ts

/-- SQL LIKE matching of a pattern against a text. -/
def likeMatch (p t : List Char) : Bool :=
  likeMatchF (p.length + t.length + 1) p t

/-- The pattern string fetch_data interpolates the raw learner_id filter
into (app.py line 400): percent, the filter verbatim and unescaped, percent. -/
def ilikePattern (lid : String) : List Char :=
  '%' :: (lid.data ++ [ '%' ])

/-- SQL `learner_id ILIKE %s` with parameter `%lid%` (app.py line 400):
ILIKE is LIKE on the case-folded pattern and text, so metacharacters inside
the user-supplied filter keep their wildcard / escape meaning. -/
def ilikeMatch (lid s : String) : Bool :=
  likeMatch (lowerChars (ilikePattern lid)) (lowerChars s.data)

/-- The WHERE clause built by fetch_data (app.py lines 399-402): the ILIKE
substring filter is added only when the learner_id parameter is nonempty, and
the from / to bounds compare with >= and <= (inclusive). -/
def rowMatches (lid : String) (fromd tod : Option ℕ) (r : StoredRow) : Bool :=
  (if lid = "" then true else ilikeMatch lid r.learner_id)
  && (match fromd with | none => true | some f => decide (f ≤ r.timestamp))
  && (match tod with | none => true | some t => decide (r.timestamp ≤ t))

/-- Insert a row into a list that is ordered by descending timestamp, keeping
it after every strictly newer row and before the rest (so rows with equal
timestamps keep their relative table order). -/
def insertDesc (r : StoredRow) : List StoredRow → List StoredRow
  | [] => [ r ]
  | x :: xs => if r.timestamp < x.timestamp then x :: insertDesc r xs else r :: x :: xs

/-- Stable sort by descending timestamp: the model of `ORDER BY timestamp
DESC` (app.py line 404), whose SQL has no further sort key, so rows with equal
timestamps are returned in table order in this model. -/
def sortDesc : List StoredRow → List StoredRow
  | [] => []
  | x :: xs => insertDesc x (sortDesc xs)

/-- The rows returned by the fetch_data query (app.py lines 394-406): filter,
order by descending timestamp, LIMIT 1000. -/
def fetchRows (db : DBState) (lid : String) (fromd tod : Option ℕ) : List StoredRow :=
  (sortDesc (db.rows.filter (fun r => rowMatches lid fromd tod r))).take 1000

/-- The GET /fetch_data handler (app.py lines 386-413): 503 with no pool, a
500 JSON error when the query raises (qFails), otherwise 200 with the rows. -/
def fetchData (poolOk qFails : Bool) (lid : String) (fromd tod : Option ℕ)
    (db : DBState) : Response × List StoredRow :=
  if poolOk = false then (⟨503, none, true⟩, [])
  else if qFails then (⟨500, none, true⟩, [])
  else (⟨200, none, false⟩, fetchRows db lid fromd tod)

/-- A record with the client-supplied total field dropped. -/
def clearTotal (r : RawRecord) : RawRecord :=
  { r with total := none }

/-- Store oracle under which every INSERT succeeds. -/
def noFail : ℕ → Bool := fun _ => false

/-- The empty performance_records table. -/
def dbEmpty : DBState := ⟨[], 0⟩

/-- Placeholder row used only as the default of `List.getD`. -/
def defaultRow : StoredRow :=
  ⟨0, "", "", PFloat.fin 0, PFloat.fin 0, PFloat.fin 0, PFloat.fin 0, PFloat.fin 0, 0⟩

/-- A well-formed submission (the end-to-end scenario of the spec) carrying a
forged client total of 999, which the handler must ignore. -/
def sampleRaw : RawRecord :=
  ⟨some "L1", some "bob", some (Val.vint 20), some (Val.vint 15), some (Val.vint 10),
    some (Val.vint 5), some (Val.vint 999)⟩

/-- save_perf applied to the one-record batch [sampleRaw] on an empty table. -/
def sampleOut : SavePerfOut := savePerf true 3 noFail (Body.records [ sampleRaw ]) dbEmpty

/-- The row that batch stores. -/
def sampleStored : StoredRow := sampleOut.db.rows.getD 0 defaultRow

/-- Store oracle that raises on the INSERT of the first record only. -/
def failFirst : ℕ → Bool := fun i => i == 0

/-- First record of the two-record batch used to exhibit partial persistence. -/
def rawA : RawRecord :=
  ⟨some "L1", some "amy", some (Val.vint 5), some (Val.vint 5), some (Val.vint 5),
    some (Val.vint 5), none⟩

/-- Second record of the two-record batch used to exhibit partial persistence. -/
def rawB : RawRecord :=
  ⟨some "L1", some "ben", some (Val.vint 4), some (Val.vint 4), some (Val.vint 4),
    some (Val.vint 4), none⟩

/-- save_perf on [rawA, rawB] when the store raises on the first INSERT. -/
def partialOut : SavePerfOut := savePerf true 7 failFirst (Body.records [ rawA, rawB ]) dbEmpty

/-- A record whose learner_id is the empty string (falsy), so the loop skips it. -/
def falsyRaw : RawRecord :=
  ⟨some "L1", some "", some (Val.vint 1), some (Val.vint 1), some (Val.vint 1),
    some (Val.vint 1), none⟩

/-- save_perf on the one-record batch [falsyRaw]. -/
def msgOut : SavePerfOut := savePerf true 0 noFail (Body.records [ falsyRaw ]) dbEmpty

/-- A record whose identifiers carry surrounding whitespace. -/
def padRaw : RawRecord :=
  ⟨some " L1 ", some " Bob ", some (Val.vint 1), some (Val.vint 1), some (Val.vint 1),
    some (Val.vint 1), none⟩

/-- save_perf on the one-record batch [padRaw]. -/
def padOut : SavePerfOut := savePerf true 0 noFail (Body.records [ padRaw ]) dbEmpty

/-- The row stored for padRaw. -/
def padStored : StoredRow := padOut.db.rows.getD 0 defaultRow

/-- A stored row with timestamp 10 and id 1, in table order before rowTie2. -/
def rowTie1 : StoredRow :=
  ⟨1, "L1", "amy", PFloat.fin 1, PFloat.fin 1, PFloat.fin 1, PFloat.fin 1, PFloat.fin 4, 10⟩

/-- A stored row with the same timestamp 10 but larger id 2. -/
def rowTie2 : StoredRow :=
  ⟨2, "L1", "ben", PFloat.fin 2, PFloat.fin 2, PFloat.fin 2, PFloat.fin 2, PFloat.fin 8, 10⟩

/-- A table holding two rows with equal timestamps, ids in insertion order. -/
def dbTie : DBState := ⟨[ rowTie1, rowTie2 ], 3⟩

/-- The pair ordering the specification requires of the listing: strictly
newer first, equal timestamps broken by descending id. -/
def rowAfter (a b : StoredRow) : Bool :=
  b.timestamp < a.timestamp || (b.timestamp == a.timestamp && b.id < a.id)

/-- Whether a list is sorted in the order the specification requires
(adjacent-pair check, which suffices for this transitive ordering). -/
def chainOrdered : List StoredRow → Bool
  | [] => true
  | [ _ ] => true
  | a :: b :: t => rowAfter a b && chainOrdered (b :: t)

/-- A stored row for learner bob, used to exercise the listing filter. -/
def rowBob : StoredRow :=
  ⟨1, "L1", "bob", PFloat.fin 1, PFloat.fin 1, PFloat.fin 1, PFloat.fin 1, PFloat.fin 4, 5⟩

/-- A table holding only rowBob. -/
def dbBob : DBState := ⟨[ rowBob ], 2⟩

/-- save_perf on a request body that is not a sequence of mappings. -/
def nonSeqOut : SavePerfOut := savePerf true 0 noFail Body.nonSeq dbEmpty

theorem truthy_eq_some (o : Option String) (h : truthy o = true) : o = some (o.getD "") := by
  cases o with
  | none => simp [truthy] at h
  | some s => rfl

theorem mem_processFrom_total (now : ℕ) (fail : ℕ → Bool) :
    ∀ (rs : List RawRecord) (i : ℕ) (db : DBState) (r : StoredRow),
      r ∈ (processFrom now fail i rs db).rows →
      r ∈ db.rows ∨ r.total = compute_total r.understanding r.application r.communication r.behavior := by
  intro rs
  induction rs with
  | nil => intro i db r h; exact Or.inl h
  | cons hd tl ih =>
    intro i db r h
    simp only [processFrom] at h
    by_cases hg : (truthy hd.lesson_id && truthy hd.learner_id) = true
    · rw [if_pos hg] at h
      by_cases hf : fail i = true
      · rw [if_pos hf] at h
        exact ih _ _ _ h
      · rw [if_neg hf] at h
        rcases ih _ _ _ h with h1 | h2
        · simp only [insertRow, List.mem_append, List.mem_singleton] at h1
          rcases h1 with h1 | h1
          · exact Or.inl h1
          · subst h1
            exact Or.inr rfl
        · exact Or.inr h2
    · rw [if_neg hg] at h
      exact ih _ _ _ h

theorem mem_processFrom_ids (now : ℕ) (fail : ℕ → Bool) :
    ∀ (rs : List RawRecord) (i : ℕ) (db : DBState) (r : StoredRow),
      r ∈ (processFrom now fail i rs db).rows →
      r ∈ db.rows ∨ ∃ raw, raw ∈ rs ∧ raw.lesson_id = some r.lesson_id
        ∧ raw.learner_id = some r.learner_id := by
  intro rs
  induction rs with
  | nil => intro i db r h; exact Or.inl h
  | cons hd tl ih =>
    intro i db r h
    simp only [processFrom] at h
    by_cases hg : (truthy hd.lesson_id && truthy hd.learner_id) = true
    · rw [if_pos hg] at h
      rcases (Bool.and_eq_true _ _).mp hg with ⟨hg1, hg2⟩
      by_cases hf : fail i = true
      · rw [if_pos hf] at h
        rcases ih _ _ _ h with h1 | ⟨raw, hm, he⟩
        · exact Or.inl h1
        · exact Or.inr ⟨raw, List.mem_cons_of_mem _ hm, he⟩
      · rw [if_neg hf] at h
        rcases ih _ _ _ h with h1 | ⟨raw, hm, he⟩
        · simp only [insertRow, List.mem_append, List.mem_singleton] at h1
          rcases h1 with h1 | h1
          · exact Or.inl h1
          · subst h1
            exact Or.inr ⟨hd, List.mem_cons_self _ _,
              truthy_eq_some _ hg1, truthy_eq_some _ hg2⟩
        · exact Or.inr ⟨raw, List.mem_cons_of_mem _ hm, he⟩
    · rw [if_neg hg] at h
      rcases ih _ _ _ h with h1 | ⟨raw, hm, he⟩
      · exact Or.inl h1
      · exact Or.inr ⟨raw, List.mem_cons_of_mem _ hm, he⟩

theorem processFrom_map_clearTotal (now : ℕ) (fail : ℕ → Bool) :
    ∀ (rs : List RawRecord) (i : ℕ) (db : DBState),
      processFrom now fail i (rs.map clearTotal) db = processFrom now fail i rs db := by
  intro rs
  induction rs with
  | nil => intro i db; rfl
  | cons hd tl ih =>
    intro i db
    obtain ⟨l1, l2, u, a, c, b, t⟩ := hd
    simp only [List.map_cons, clearTotal, processFrom]
    by_cases hg : (truthy l1 && truthy l2) = true
    · rw [if_pos hg, if_pos hg]
      by_cases hf : fail i = true
      · rw [if_pos hf, if_pos hf]
        exact ih _ _
      · rw [if_neg hf, if_neg hf]
        exact ih _ _
    · rw [if_neg hg, if_neg hg]
      exact ih _ _

theorem processFrom_length (now : ℕ) :
    ∀ (rs : List RawRecord) (i : ℕ) (db : DBState),
      (processFrom now noFail i rs db).rows.length
        = db.rows.length + List.countP (fun r => truthy r.lesson_id && truthy r.learner_id) rs := by
  intro rs
  induction rs with
  | nil => intro i db; simp [processFrom, List.countP_nil]
  | cons hd tl ih =>
    intro i db
    simp only [processFrom, noFail, if_neg Bool.false_ne_true, List.countP_cons]
    by_cases hg : (truthy hd.lesson_id && truthy hd.learner_id) = true
    · rw [if_pos hg, ih, if_pos hg]
      simp only [insertRow, List.length_append, List.length_singleton]
      omega
    · rw [if_neg hg, ih, if_neg hg]
      omega

theorem mem_insertDesc (r y : StoredRow) :
    ∀ l, y ∈ insertDesc r l ↔ y = r ∨ y ∈ l := by
  intro l
  induction l with
  | nil => simp [insertDesc]
  | cons x xs ih =>
    simp only [insertDesc]
    by_cases h : r.timestamp < x.timestamp
    · rw [if_pos h]
      simp only [List.mem_cons, ih]
      tauto
    · rw [if_neg h]
      simp only [List.mem_cons]

theorem mem_sortDesc (y : StoredRow) : ∀ l, y ∈ sortDesc l ↔ y ∈ l := by
  intro l
  induction l with
  | nil => simp [sortDesc]
  | cons x xs ih =>
    simp only [sortDesc, mem_insertDesc, ih, List.mem_cons]

theorem pairwise_insertDesc (r : StoredRow) :
    ∀ l, List.Pairwise (fun a b : StoredRow => b.timestamp ≤ a.timestamp) l →
      List.Pairwise (fun a b : StoredRow => b.timestamp ≤ a.timestamp) (insertDesc r l) := by
  intro l
  induction l with
  | nil =>
    intro
    simp [insertDesc]
  | cons x xs ih =>
    intro h
    rcases List.pairwise_cons.mp h with ⟨hx, hxs⟩
    simp only [insertDesc]
    by_cases hc : r.timestamp < x.timestamp
    · rw [if_pos hc]
      refine List.pairwise_cons.mpr ⟨?_, ih hxs⟩
      intro y hy
      rcases (mem_insertDesc r y xs).mp hy with hy | hy
      · subst hy
        exact le_of_lt hc
      · exact hx y hy
    · rw [if_neg hc]
      refine List.pairwise_cons.mpr ⟨?_, h⟩
      intro y hy
      rcases List.mem_cons.mp hy with hy | hy
      · subst hy
        exact le_of_not_lt hc
      · exact le_trans (hx y hy) (le_of_not_lt hc)

theorem pairwise_sortDesc :
    ∀ l, List.Pairwise (fun a b : StoredRow => b.timestamp ≤ a.timestamp) (sortDesc l) := by
  intro l
  induction l with
  | nil => simp [sortDesc]
  | cons x xs ih => exact pairwise_insertDesc x _ ih

theorem startsWithChars_iff :
    ∀ (p l : List Char), startsWithChars p l = true ↔ ∃ t, l = p ++ t := by
  intro p
  induction p with
  | nil =>
    intro l
    simp [startsWithChars]
  | cons a as ih =>
    intro l
    cases l with
    | nil => simp [startsWithChars]
    | cons b bs =>
      simp only [startsWithChars, Bool.and_eq_true, beq_iff_eq, ih, List.cons_append,
        List.cons.injEq]
      constructor
      · rintro ⟨hab, t, ht⟩
        exact ⟨t, hab.symm, ht⟩
      · rintro ⟨t, hab, ht⟩
        exact ⟨hab.symm, t, ht⟩

theorem subChars_iff :
    ∀ (p l : List Char), subChars p l = true ↔ ∃ x y, l = x ++ p ++ y := by
  intro p l
  induction l with
  | nil =>
    simp only [subChars, startsWithChars_iff]
    constructor
    · rintro ⟨t, ht⟩
      refine ⟨[], t, ?_⟩
      simpa using ht
    · rintro ⟨x, y, hxy⟩
      have h2 := hxy.symm
      rw [List.append_assoc, List.append_eq_nil] at h2
      rcases h2 with ⟨hx, h3⟩
      rw [List.append_eq_nil] at h3
      exact ⟨[], by simp [h3.1]⟩
  | cons c t ih =>
    simp only [subChars, Bool.or_eq_true, startsWithChars_iff, ih]
    constructor
    · rintro (⟨s, hs⟩ | ⟨x, y, hxy⟩)
      · exact ⟨[], s, by simpa using hs⟩
      · exact ⟨c :: x, y, by simp [hxy]⟩
    · rintro ⟨x, y, hxy⟩
      cases x with
      | nil =>
        refine Or.inl ⟨y, ?_⟩
        simpa using hxy
      | cons x0 xs =>
        rw [List.append_assoc, List.cons_append] at hxy
        injection hxy with h1 h2
        refine Or.inr ⟨xs, y, ?_⟩
        rw [h2, List.append_assoc]

/-- C1: every row the save_performance batch insert writes stores a total
equal to compute_total of its four stored (normalised) domain scores, i.e.
round(u+a+c+b, 2) computed server-side (rows already in the table are left as
they were), and the client-supplied total field is ignored: the handler output
is unchanged when every total field of the batch is dropped. -/
theorem save_perf_total_invariant :
    ∀ (now : ℕ) (fail : ℕ → Bool) (rs : List RawRecord) (db : DBState),
      (∀ r, r ∈ (savePerf true now fail (Body.records rs) db).db.rows →
        r ∈ db.rows ∨ r.total = compute_total r.understanding r.application r.communication r.behavior)
      ∧ savePerf true now fail (Body.records (rs.map clearTotal)) db
          = savePerf true now fail (Body.records rs) db := by
  intro now fail rs db
  constructor
  · intro r h
    refine mem_processFrom_total now fail rs 0 db r ?_
    simpa [savePerf] using h
  · simp [savePerf, processFrom_map_clearTotal]

/-- Witness for C1: the row stored for the concrete batch [sampleRaw] (whose
client total field is a forged 999) satisfies the server-side total
invariant, and dropping the client total field changes nothing. -/
theorem save_perf_total_invariant_witness :
    sampleStored.total = compute_total sampleStored.understanding sampleStored.application
      sampleStored.communication sampleStored.behavior
    ∧ savePerf true 3 noFail (Body.records (List.map clearTotal [ sampleRaw ])) dbEmpty = sampleOut := by
  constructor
  · refine ((save_perf_total_invariant 3 noFail [ sampleRaw ] dbEmpty).1 sampleStored ?_).resolve_left ?_
    · have h : (savePerf true 3 noFail (Body.records [ sampleRaw ]) dbEmpty).db.rows
          = [ sampleStored ] := rfl
      rw [h]
      exact List.mem_singleton.mpr rfl
    · simp [dbEmpty]
  · exact (save_perf_total_invariant 3 noFail [ sampleRaw ] dbEmpty).2

/-- C2: the batch insert is not atomic.  On the concrete two-record
well-formed batch [rawA, rawB], with the store raising on the first INSERT
only (failFirst), save_perf persists exactly the second record and still
reports success: partial-batch persistence after a mid-batch exception.  The
spec (source of the claim) calls this a defect; the code has it because the
bare per-row except at app.py lines 374-376 logs and continues and the whole
loop commits at line 378. -/
theorem save_perf_partial_persistence :
    (truthy rawA.lesson_id && truthy rawA.learner_id) = true
    ∧ (truthy rawB.lesson_id && truthy rawB.learner_id) = true
    ∧ partialOut.db.rows.length = 1
    ∧ partialOut.db.rows.map StoredRow.learner_id = [ "ben" ]
    ∧ partialOut.resp.status = 200 ∧ partialOut.resp.error = false :=
  ⟨rfl, rfl, rfl, rfl, rfl, rfl⟩

/-- C3: safe_float is total (it is a function into PFloat, with the raising
builtin float wrapped inside); whenever the modelled float(v) call raises it
returns exactly 0.0, whenever float(v) succeeds it returns that float
unchanged, and in particular a string that parses returns exactly its parsed
numeric value. -/
theorem safe_float_total_spec :
    ∀ (v : Option Val),
      (pyFloat v = Except.error () → safe_float v = PFloat.fin 0)
      ∧ (∀ f, pyFloat v = Except.ok f → safe_float v = f)
      ∧ (∀ s f, v = some (Val.vstr s) → pyParseFloat s = some f → safe_float v = f) := by
  intro v
  refine ⟨?_, ?_, ?_⟩
  · intro h
    simp [safe_float, h]
  · intro f h
    simp [safe_float, h]
  · intro s f hv hp
    subst hv
    simp [safe_float, pyFloat, hp]

/-- Witness for C3: a non-numeric string converts to exactly 0.0, the numeric
string " 7 " parses to exactly 7.0, and a missing field converts to 0.0. -/
theorem safe_float_total_spec_witness :
    safe_float (some (Val.vstr "abc")) = PFloat.fin 0
    ∧ safe_float (some (Val.vstr " 7 ")) = PFloat.fin 7
    ∧ safe_float none = PFloat.fin 0 :=
  ⟨(safe_float_total_spec (some (Val.vstr "abc"))).1 rfl,
   (safe_float_total_spec (some (Val.vstr " 7 "))).2.2 " 7 " (PFloat.fin 7) rfl rfl,
   (safe_float_total_spec none).1 rfl⟩

/-- C4 counterexample: a NaN input value is NOT substituted with 0.0 by the
normaliser — float(nan) succeeds, so safe_float passes NaN through. -/
theorem safe_float_nan_counterexample :
    ¬ (safe_float (some (Val.vfloat PFloat.nan)) = PFloat.fin 0) := by
  intro h
  exact PFloat.noConfusion h

/-- C4 (amended): a NaN input (whether a NaN float or the string nan) is
passed through as NaN, not treated as a conversion failure; only inputs whose
conversion raises — missing key, null, non-numeric string, non-numeric
object — are substituted with 0.0. -/
theorem safe_float_nan_passthrough :
    safe_float (some (Val.vfloat PFloat.nan)) = PFloat.nan
    ∧ safe_float (some (Val.vstr "nan")) = PFloat.nan
    ∧ safe_float (some Val.vnone) = PFloat.fin 0
    ∧ safe_float none = PFloat.fin 0
    ∧ safe_float (some (Val.vstr "abc")) = PFloat.fin 0
    ∧ safe_float (some Val.vobj) = PFloat.fin 0 :=
  ⟨rfl, rfl, rfl, rfl, rfl, rfl⟩

/-- C5 counterexample: on the concrete batch [falsyRaw] (learner_id is the
empty string) nothing is inserted, yet the success message reports 1 record:
the reported n is not the number of records actually inserted. -/
theorem save_perf_message_counterexample :
    msgOut.resp.message = some 1 ∧ msgOut.db.rows = []
    ∧ msgOut.resp.message ≠ some msgOut.db.rows.length :=
  ⟨rfl, rfl, by decide⟩

/-- C5 (amended): the success message of save_performance reports len(data),
the number of entries in the submitted batch (the records processed count),
for every batch and store behaviour — which can exceed the number of rows
actually inserted when entries are skipped or their INSERT fails. -/
theorem save_perf_message_counts_batch :
    ∀ (now : ℕ) (fail : ℕ → Bool) (rs : List RawRecord) (db : DBState),
      (savePerf true now fail (Body.records rs) db).resp.message = some rs.length := by
  intro now fail rs db
  rfl

/-- C6 counterexample: identifiers are NOT trimmed before storage — the
concrete record padRaw with learner_id " Bob " and lesson_id " L1 " is stored
with the surrounding whitespace intact (both stored strings differ from their
whitespace-stripped forms). -/
theorem save_perf_untrimmed_counterexample :
    padOut.db.rows.map StoredRow.learner_id = [ " Bob " ]
    ∧ padOut.db.rows.map StoredRow.lesson_id = [ " L1 " ]
    ∧ stripChars " Bob ".data ≠ " Bob ".data
    ∧ stripChars " L1 ".data ≠ " L1 ".data :=
  ⟨rfl, rfl, by decide, by decide⟩

/-- C6 (amended): for every record inserted, the learner_id and lesson_id
strings are stored exactly as supplied by the client — untrimmed, with
whitespace and letter case preserved unchanged at write time. -/
theorem save_perf_ids_stored_verbatim :
    ∀ (now : ℕ) (fail : ℕ → Bool) (rs : List RawRecord) (db : DBState) (r : StoredRow),
      r ∈ (savePerf true now fail (Body.records rs) db).db.rows →
      r ∈ db.rows ∨ ∃ raw, raw ∈ rs ∧ raw.lesson_id = some r.lesson_id
        ∧ raw.learner_id = some r.learner_id := by
  intro now fail rs db r h
  refine mem_processFrom_ids now fail rs 0 db r ?_
  simpa [savePerf] using h

/-- Witness for C6 (amended): the row stored for padRaw carries exactly the
untrimmed identifier strings of the submitted record. -/
theorem save_perf_ids_stored_verbatim_witness :
    ∃ raw, raw ∈ [ padRaw ] ∧ raw.lesson_id = some padStored.lesson_id
      ∧ raw.learner_id = some padStored.learner_id := by
  refine (save_perf_ids_stored_verbatim 0 noFail [ padRaw ] dbEmpty padStored ?_).resolve_left ?_
  · have h : (savePerf true 0 noFail (Body.records [ padRaw ]) dbEmpty).db.rows
        = [ padStored ] := rfl
    rw [h]
    exact List.mem_singleton.mpr rfl
  · simp [dbEmpty]

/-- C7 counterexample: on the concrete table dbTie, whose two rows share
timestamp 10 and have ids 1 and 2 in insertion order, the listing returns
them with ids ascending — the tie is NOT broken by descending id (the SQL
orders by timestamp only). -/
theorem fetch_data_tiebreak_counterexample :
    fetchRows dbTie "" none none = [ rowTie1, rowTie2 ]
    ∧ chainOrdered (fetchRows dbTie "" none none) = false
    ∧ rowTie1.timestamp = rowTie2.timestamp
    ∧ rowTie1.id < rowTie2.id :=
  ⟨rfl, rfl, rfl, by decide⟩

/-- C7 (amended): for every query the listing result is ordered by descending
timestamp (rows with equal timestamps in unspecified relative order — the
model keeps table order), and the result is capped at 1000 rows. -/
theorem fetch_data_order_and_limit :
    ∀ (db : DBState) (lid : String) (fromd tod : Option ℕ),
      List.Pairwise (fun a b : StoredRow => b.timestamp ≤ a.timestamp) (fetchRows db lid fromd tod)
      ∧ (fetchRows db lid fromd tod).length ≤ 1000 := by
  intro db lid fromd tod
  constructor
  · exact (pairwise_sortDesc _).sublist (List.take_sublist _ _)
  · simp only [fetchRows, List.length_take]
    exact min_le_left _ _

theorem likeMatchF_stable :
    ∀ (n m : ℕ) (p t : List Char), p.length + t.length < n → p.length + t.length < m →
      likeMatchF n p t = likeMatchF m p t := by
  intro n
  induction n with
  | zero =>
    intro m p t hn _
    exact absurd hn (Nat.not_lt_zero _)
  | succ n ih =>
    intro m p t hn hm
    cases m with
    | zero => exact absurd hm (Nat.not_lt_zero _)
    | succ m =>
      cases p with
      | nil => rfl
      | cons p0 ps =>
        cases t with
        | nil =>
          simp only [likeMatchF]
          by_cases h1 : p0 = '%'
          · rw [if_pos h1, if_pos h1]
            refine ih m ps [] ?_ ?_ <;>
              (simp only [List.length_cons, List.length_nil] at hn hm ⊢; omega)
          · rw [if_neg h1, if_neg h1]
        | cons c ts =>
          simp only [likeMatchF]
          by_cases h1 : p0 = '%'
          · rw [if_pos h1, if_pos h1]
            have e1 : likeMatchF n ps (c :: ts) = likeMatchF m ps (c :: ts) := by
              refine ih m ps (c :: ts) ?_ ?_ <;>
                (simp only [List.length_cons] at hn hm ⊢; omega)
            have e2 : likeMatchF n (p0 :: ps) ts = likeMatchF m (p0 :: ps) ts := by
              refine ih m (p0 :: ps) ts ?_ ?_ <;>
                (simp only [List.length_cons] at hn hm ⊢; omega)
            rw [e1, e2]
          · by_cases h2 : p0 = '_'
            · rw [if_neg h1, if_pos h2, if_neg h1, if_pos h2]
              refine ih m ps ts ?_ ?_ <;>
                (simp only [List.length_cons] at hn hm ⊢; omega)
            · by_cases h3 : p0 = '\\'
              · rw [if_neg h1, if_neg h2, if_pos h3, if_neg h1, if_neg h2, if_pos h3]
                cases ps with
                | nil => rfl
                | cons q ps2 =>
                  show (c == q && likeMatchF n ps2 ts) = (c == q && likeMatchF m ps2 ts)
                  have e : likeMatchF n ps2 ts = likeMatchF m ps2 ts := by
                    refine ih m ps2 ts ?_ ?_ <;>
                      (simp only [List.length_cons] at hn hm ⊢; omega)
                  rw [e]
              · rw [if_neg h1, if_neg h2, if_neg h3, if_neg h1, if_neg h2, if_neg h3]
                have e : likeMatchF n ps ts = likeMatchF m ps ts := by
                  refine ih m ps ts ?_ ?_ <;>
                    (simp only [List.length_cons] at hn hm ⊢; omega)
                rw [e]

theorem likeMatchF_adequate (n : ℕ) (p t : List Char) (h : p.length + t.length < n) :
    likeMatchF n p t = likeMatch p t :=
  likeMatchF_stable n (p.length + t.length + 1) p t h (by omega)

theorem likeMatch_nil_pat (t : List Char) : likeMatch [] t = t.isEmpty := rfl

theorem likeMatch_percent_nil (ps : List Char) :
    likeMatch ('%' :: ps) [] = likeMatch ps [] := by
  have hstep : likeMatch ('%' :: ps) [] = likeMatchF (ps.length + 1 + 0) ps [] := rfl
  rw [hstep, likeMatchF_adequate (ps.length + 1 + 0) ps []
    (by simp only [List.length_nil]; omega)]

theorem likeMatch_percent_cons (ps : List Char) (c : Char) (ts : List Char) :
    likeMatch ('%' :: ps) (c :: ts)
      = (likeMatch ps (c :: ts) || likeMatch ('%' :: ps) ts) := by
  have hstep : likeMatch ('%' :: ps) (c :: ts)
      = (likeMatchF (ps.length + 1 + (ts.length + 1)) ps (c :: ts)
          || likeMatchF (ps.length + 1 + (ts.length + 1)) ('%' :: ps) ts) := rfl
  rw [hstep,
    likeMatchF_adequate (ps.length + 1 + (ts.length + 1)) ps (c :: ts)
      (by simp only [List.length_cons]; omega),
    likeMatchF_adequate (ps.length + 1 + (ts.length + 1)) ('%' :: ps) ts
      (by simp only [List.length_cons]; omega)]

theorem likeMatch_lit_nil (p0 : Char) (ps : List Char) (h1 : p0 ≠ '%') :
    likeMatch (p0 :: ps) [] = false := by
  have hstep : likeMatch (p0 :: ps) []
      = (if p0 = '%' then likeMatchF (ps.length + 1 + 0) ps [] else false) := rfl
  rw [hstep, if_neg h1]

theorem likeMatch_lit_cons (p0 : Char) (ps : List Char) (c : Char) (ts : List Char)
    (h1 : p0 ≠ '%') (h2 : p0 ≠ '_') (h3 : p0 ≠ '\\') :
    likeMatch (p0 :: ps) (c :: ts) = (c == p0 && likeMatch ps ts) := by
  have hstep : likeMatch (p0 :: ps) (c :: ts)
      = (if p0 = '%' then
          likeMatchF (ps.length + 1 + (ts.length + 1)) ps (c :: ts)
            || likeMatchF (ps.length + 1 + (ts.length + 1)) (p0 :: ps) ts
        else if p0 = '_' then likeMatchF (ps.length + 1 + (ts.length + 1)) ps ts
        else if p0 = '\\' then
          (match ps with
            | [] => false
            | q :: ps2 => c == q && likeMatchF (ps.length + 1 + (ts.length + 1)) ps2 ts)
        else c == p0 && likeMatchF (ps.length + 1 + (ts.length + 1)) ps ts) := rfl
  rw [hstep, if_neg h1, if_neg h2, if_neg h3,
    likeMatchF_adequate (ps.length + 1 + (ts.length + 1)) ps ts (by omega)]

theorem likeMatch_all_percent : ∀ t, likeMatch [ '%' ] t = true := by
  intro t
  induction t with
  | nil => rw [likeMatch_percent_nil]; rfl
  | cons c ts ih =>
    rw [likeMatch_percent_cons, ih]
    simp

theorem noMetaChar_spec (c : Char) :
    noMetaChar c = true ↔ (c ≠ '%' ∧ c ≠ '_' ∧ c ≠ '\\') := by
  simp [noMetaChar, not_or, and_assoc]

theorem char_toNat_ofNat (k : ℕ) (hk1 : 97 ≤ k) (hk2 : k ≤ 122) :
    (Char.ofNat k).toNat = k := by
  have hv : k.isValidChar := Or.inl (by omega)
  simp [Char.ofNat, Char.ofNatAux, hv, Char.toNat, UInt32.toNat, BitVec.toNat_ofNatLt]

theorem noMetaChar_toLower (c : Char) (h : noMetaChar c = true) :
    noMetaChar c.toLower = true := by
  have hdef : c.toLower
      = (if c.toNat ≥ 65 ∧ c.toNat ≤ 90 then Char.ofNat (c.toNat + 32) else c) := rfl
  by_cases hc : c.toNat ≥ 65 ∧ c.toNat ≤ 90
  · rw [hdef, if_pos hc]
    have htn : (Char.ofNat (c.toNat + 32)).toNat = c.toNat + 32 :=
      char_toNat_ofNat (c.toNat + 32) (by omega) (by omega)
    refine (noMetaChar_spec _).mpr ⟨?_, ?_, ?_⟩
    · intro he
      have h37 := congrArg Char.toNat he
      rw [htn] at h37
      have he37 : ('%').toNat = 37 := rfl
      rw [he37] at h37
      omega
    · intro he
      have h95 := congrArg Char.toNat he
      rw [htn] at h95
      have he95 : ('_').toNat = 95 := rfl
      rw [he95] at h95
      omega
    · intro he
      have h92 := congrArg Char.toNat he
      rw [htn] at h92
      have he92 : ('\\').toNat = 92 := rfl
      rw [he92] at h92
      omega
  · rw [hdef, if_neg hc]
    exact h

theorem noMeta_lowerChars :
    ∀ (l : List Char), l.all noMetaChar = true → (lowerChars l).all noMetaChar = true := by
  intro l
  induction l with
  | nil => intro _; rfl
  | cons c cs ih =>
    intro h
    simp only [List.all_cons, Bool.and_eq_true] at h
    simp only [lowerChars, List.map_cons, List.all_cons, Bool.and_eq_true]
    exact ⟨noMetaChar_toLower c h.1, ih h.2⟩

theorem likeMatch_lit_run :
    ∀ (lp : List Char), lp.all noMetaChar = true →
      ∀ t, (likeMatch (lp ++ [ '%' ]) t = true ↔ ∃ rest, t = lp ++ rest) := by
  intro lp
  induction lp with
  | nil =>
    intro _ t
    simp only [List.nil_append]
    constructor
    · intro _
      exact ⟨t, rfl⟩
    · intro _
      exact likeMatch_all_percent t
  | cons a as ih =>
    intro hall t
    have hsplit : noMetaChar a = true ∧ as.all noMetaChar = true := by
      simpa [List.all_cons, Bool.and_eq_true] using hall
    rcases hsplit with ⟨ha, has⟩
    rcases (noMetaChar_spec a).mp ha with ⟨h1, h2, h3⟩
    cases t with
    | nil =>
      rw [List.cons_append, likeMatch_lit_nil a (as ++ [ '%' ]) h1]
      simp
    | cons c ts =>
      rw [List.cons_append, likeMatch_lit_cons a (as ++ [ '%' ]) c ts h1 h2 h3]
      simp only [Bool.and_eq_true, beq_iff_eq, ih has ts, List.cons_append, List.cons.injEq]
      constructor
      · rintro ⟨rfl, rest, rfl⟩
        exact ⟨rest, rfl, rfl⟩
      · rintro ⟨rest, rfl, rfl⟩
        exact ⟨rfl, rest, rfl⟩

theorem likeMatch_percent_split :
    ∀ (p t : List Char),
      (likeMatch ('%' :: p) t = true ↔ ∃ x y, t = x ++ y ∧ likeMatch p y = true) := by
  intro p t
  induction t with
  | nil =>
    rw [likeMatch_percent_nil]
    constructor
    · intro h
      exact ⟨[], [], rfl, h⟩
    · rintro ⟨x, y, hxy, hy⟩
      rcases List.append_eq_nil.mp hxy.symm with ⟨rfl, rfl⟩
      exact hy
  | cons c ts ih =>
    rw [likeMatch_percent_cons]
    simp only [Bool.or_eq_true, ih]
    constructor
    · rintro (h | ⟨x, y, rfl, hy⟩)
      · exact ⟨[], c :: ts, rfl, h⟩
      · exact ⟨c :: x, y, rfl, hy⟩
    · rintro ⟨x, y, hxy, hy⟩
      cases x with
      | nil =>
        rw [List.nil_append] at hxy
        rw [hxy]
        exact Or.inl hy
      | cons x0 xs =>
        rw [List.cons_append] at hxy
        injection hxy with hc hts
        exact Or.inr ⟨xs, y, hts, hy⟩

theorem lowerChars_ilikePattern (lid : String) :
    lowerChars (ilikePattern lid) = '%' :: (lowerChars lid.data ++ [ '%' ]) := by
  have hp : Char.toLower '%' = '%' := rfl
  simp [ilikePattern, lowerChars, List.map_cons, List.map_append, hp]

theorem ilikeMatch_noMeta (lid s : String) (h : lid.data.all noMetaChar = true) :
    (ilikeMatch lid s = true ↔ ∃ x y, lowerChars s.data = x ++ lowerChars lid.data ++ y) := by
  have hlow := noMeta_lowerChars lid.data h
  simp only [ilikeMatch, lowerChars_ilikePattern]
  rw [likeMatch_percent_split]
  constructor
  · rintro ⟨x, y, hxy, hy⟩
    rcases (likeMatch_lit_run (lowerChars lid.data) hlow y).mp hy with ⟨rest, rfl⟩
    refine ⟨x, rest, ?_⟩
    rw [hxy, List.append_assoc]
  · rintro ⟨x, y, hxy⟩
    refine ⟨x, lowerChars lid.data ++ y, ?_,
      (likeMatch_lit_run (lowerChars lid.data) hlow (lowerChars lid.data ++ y)).mpr ⟨y, rfl⟩⟩
    rw [hxy, List.append_assoc]

/-- C8 counterexample: the listing filter is NOT literal substring matching.
With the filter string consisting of one underscore, the query returns the row
for learner bob (rowMatches holds: the underscore is an ILIKE wildcard inside
the unescaped pattern), yet the lowercased underscore is no contiguous
substring of the lowercased learner_id. -/
theorem fetch_data_wildcard_counterexample :
    rowMatches "_" none none rowBob = true
    ∧ fetchRows dbBob "_" none none = [ rowBob ]
    ∧ ¬ ∃ x y, lowerChars rowBob.learner_id.data = x ++ lowerChars "_".data ++ y := by
  refine ⟨rfl, rfl, ?_⟩
  rintro ⟨x, y, hxy⟩
  have h := (subChars_iff (lowerChars "_".data) (lowerChars rowBob.learner_id.data)).mpr
    ⟨x, y, hxy⟩
  exact absurd h (by decide)

/-- C8 (amended): a row passes the listing filter exactly when (unless the
filter is absent) the ILIKE pattern percent-filter-percent, with the raw
filter interpolated unescaped so that percent and underscore keep their
wildcard meaning and backslash its escape meaning, matches its learner_id,
and its timestamp lies inside the from / to range with both bounds inclusive;
for filter strings free of the three LIKE metacharacters the ILIKE match is
exactly case-insensitive substring comparison; and every row returned by the
query passes the filter. -/
theorem fetch_data_filter_ilike :
    ∀ (db : DBState) (lid : String) (fromd tod : Option ℕ) (r : StoredRow),
      (rowMatches lid fromd tod r = true ↔
        ((lid = "" ∨ ilikeMatch lid r.learner_id = true)
          ∧ (∀ f, fromd = some f → f ≤ r.timestamp)
          ∧ (∀ t, tod = some t → r.timestamp ≤ t)))
      ∧ (lid.data.all noMetaChar = true →
          (ilikeMatch lid r.learner_id = true ↔
            ∃ x y, lowerChars r.learner_id.data = x ++ lowerChars lid.data ++ y))
      ∧ (r ∈ fetchRows db lid fromd tod → rowMatches lid fromd tod r = true) := by
  intro db lid fromd tod r
  refine ⟨?_, ?_, ?_⟩
  · simp only [rowMatches, Bool.and_eq_true]
    constructor
    · rintro ⟨⟨h1, h2⟩, h3⟩
      refine ⟨?_, ?_, ?_⟩
      · by_cases hl : lid = ""
        · exact Or.inl hl
        · rw [if_neg hl] at h1
          exact Or.inr h1
      · intro f hf
        subst hf
        simpa using h2
      · intro t ht
        subst ht
        simpa using h3
    · rintro ⟨h1, h2, h3⟩
      refine ⟨⟨?_, ?_⟩, ?_⟩
      · by_cases hl : lid = ""
        · rw [if_pos hl]
        · rw [if_neg hl]
          rcases h1 with h1 | h1
          · exact absurd h1 hl
          · exact h1
      · cases fromd with
        | none => rfl
        | some f => simpa using h2 f rfl
      · cases tod with
        | none => rfl
        | some t => simpa using h3 t rfl
  · intro hm
    exact ilikeMatch_noMeta lid r.learner_id hm
  · intro h
    simp only [fetchRows] at h
    have h2 := List.take_subset _ _ h
    have h3 := (mem_sortDesc r _).mp h2
    exact (List.mem_filter.mp h3).2

/-- Witness for C8 (amended): the concrete row for learner bob is returned by
the query with the metacharacter-free filter string BO and passes the filter,
and for that filter the ILIKE match gives a literal substring decomposition
of the lowercased learner_id. -/
theorem fetch_data_filter_ilike_witness :
    rowMatches "BO" none none rowBob = true
    ∧ ∃ x y, lowerChars rowBob.learner_id.data = x ++ lowerChars "BO".data ++ y := by
  constructor
  · refine (fetch_data_filter_ilike dbBob "BO" none none rowBob).2.2 ?_
    have h : fetchRows dbBob "BO" none none = [ rowBob ] := rfl
    rw [h]
    exact List.mem_singleton.mpr rfl
  · exact ((fetch_data_filter_ilike dbBob "BO" none none rowBob).2.1 (by decide)).mp (by decide)

/-- C9 counterexample: on a body that is not a sequence of mappings the
handler acquires a database connection first (storage IS touched before the
rejection) and answers 500, not a 400-equivalent. -/
theorem save_perf_nonseq_counterexample :
    nonSeqOut.touchedStorage = true ∧ nonSeqOut.resp.status = 500
    ∧ nonSeqOut.resp.status ≠ 400 ∧ nonSeqOut.resp.error = true :=
  ⟨rfl, rfl, by decide, rfl⟩

/-- C9 (amended): every response of the two performance endpoints is either a
200 success or a JSON error object with a non-success status (500 or 503, so
at least 400) — the handlers never crash (they are total functions in the
model) — and a non-sequence body in particular yields a JSON error, with
status 500 when the pool exists (503 before that). -/
theorem endpoints_error_shape :
    ∀ (poolOk : Bool) (now : ℕ) (fail : ℕ → Bool) (b : Body) (db : DBState)
      (lid : String) (fromd tod : Option ℕ) (qFails : Bool),
      (((savePerf poolOk now fail b db).resp.status = 200
          ∧ (savePerf poolOk now fail b db).resp.error = false)
        ∨ ((savePerf poolOk now fail b db).resp.error = true
          ∧ 400 ≤ (savePerf poolOk now fail b db).resp.status))
      ∧ ((savePerf poolOk now fail Body.nonSeq db).resp.error = true
        ∧ (savePerf poolOk now fail Body.nonSeq db).resp.status = (if poolOk then 500 else 503))
      ∧ (((fetchData poolOk qFails lid fromd tod db).1.status = 200
          ∧ (fetchData poolOk qFails lid fromd tod db).1.error = false)
        ∨ ((fetchData poolOk qFails lid fromd tod db).1.error = true
          ∧ 400 ≤ (fetchData poolOk qFails lid fromd tod db).1.status)) := by
  intro poolOk now fail b db lid fromd tod qFails
  cases poolOk <;> cases b <;> cases qFails <;>
    simp [savePerf, fetchData]

/-- C10: on a batch processed with no store failures, save_perf answers 200
with no error and a message counting every submitted record; the number of
rows added is exactly the number of records whose two identifiers are both
truthy — records with a missing or empty (falsy) identifier are silently
skipped and never persisted while still being counted in the message; and any
nonempty identifier string, including whitespace-only ones, is truthy, so
such records are not skipped. -/
theorem save_perf_skip_semantics :
    ∀ (now : ℕ) (rs : List RawRecord) (db : DBState),
      (savePerf true now noFail (Body.records rs) db).resp = ⟨200, some rs.length, false⟩
      ∧ (savePerf true now noFail (Body.records rs) db).db.rows.length
          = db.rows.length + List.countP (fun r => truthy r.lesson_id && truthy r.learner_id) rs
      ∧ (∀ s : String, s ≠ "" → truthy (some s) = true)
      ∧ truthy none = false ∧ truthy (some "") = false := by
  intro now rs db
  refine ⟨by simp [savePerf], ?_, ?_, rfl, rfl⟩
  · simpa [savePerf] using processFrom_length now rs 0 db
  · intro s hs
    simp [truthy, hs]

/-- Witness for C10: the whitespace-only identifier is truthy (so a record
carrying it is not skipped), and on the concrete mixed batch [falsyRaw,
padRaw] the number of rows added equals the count of truthy-id records. -/
theorem save_perf_skip_semantics_witness :
    truthy (some " ") = true
    ∧ (savePerf true 0 noFail (Body.records [ falsyRaw, padRaw ]) dbEmpty).db.rows.length
        = dbEmpty.rows.length
          + List.countP (fun r => truthy r.lesson_id && truthy r.learner_id) [ falsyRaw, padRaw ] :=
  ⟨(save_perf_skip_semantics 0 [ falsyRaw, padRaw ] dbEmpty).2.2.1 " " (by decide),
   (save_perf_skip_semantics 0 [ falsyRaw, padRaw ] dbEmpty).2.1⟩
